import Mathlib

/-!
# Verification of the renewable-energy dashboard's data transformations

Shallow embedding of the data-transformation logic of `src/app.py` (a
pandas/Streamlit dashboard).  Tables are lists of records; pandas column
operations become list operations; missing cells (NaN) are `none`; float
arithmetic is modelled over `ℚ` (every concrete value appearing in the
stated properties is exactly representable, so the rational and the
floating-point results coincide there).
-/

namespace Renewable

/-- One record of `renewable_dataset.csv` (§3 of the design: one row per
household-year observation).  The measurement columns `Monthly_Usage_kWh`,
`Cost_Savings_USD`, `Household_Size` and `Adoption_Year` are optional so that
missing (NaN) cells are representable; pandas reductions skip them. -/
structure Row where
  year : Int
  country : String
  energySource : String
  monthlyUsage : Option ℚ
  costSavings : Option ℚ
  incomeLevel : String
  householdSize : Option ℚ
  urbanRural : String
  adoptionYear : Option Int
deriving DecidableEq, Repr

abbrev Table := List Row

/-! ## String order

Python (and hence pandas/numpy when sorting string data, e.g. inside
`Series.mode()` and when listing group keys) compares strings
lexicographically by Unicode code point, with a proper prefix ordered first.
`strLt` is that order, written so that it reduces inside the kernel (Lean's
own `String.<` does not, being defined through iterators). -/

def charListLt : List Char → List Char → Bool
  | [], [] => false
  | [], _ :: _ => true
  | _ :: _, [] => false
  | a :: as, b :: bs =>
      if a.toNat < b.toNat then true
      else if b.toNat < a.toNat then false
      else charListLt as bs

def strLt (a b : String) : Prop :=
  charListLt a.data b.data = true

instance (a b : String) : Decidable (strLt a b) :=
  inferInstanceAs (Decidable (charListLt a.data b.data = true))

theorem charListLt_irrefl (l : List Char) : charListLt l l = false := by
  induction l with
  | nil => rfl
  | cons a as ih => simp [charListLt, ih]

theorem charListLt_trans {a b c : List Char}
    (hab : charListLt a b = true) (hbc : charListLt b c = true) :
    charListLt a c = true := by
  induction a generalizing b c with
  | nil =>
      cases b with
      | nil => exact absurd hab (by simp [charListLt])
      | cons y ys =>
          cases c with
          | nil => exact absurd hbc (by simp [charListLt])
          | cons z zs => simp [charListLt]
  | cons x xs ih =>
      cases b with
      | nil => exact absurd hab (by simp [charListLt])
      | cons y ys =>
          cases c with
          | nil => exact absurd hbc (by simp [charListLt])
          | cons z zs =>
              simp only [charListLt] at hab hbc ⊢
              by_cases hxy : x.toNat < y.toNat
              · by_cases hyz : y.toNat < z.toNat
                · rw [if_pos (show x.toNat < z.toNat by omega)]
                · rw [if_neg hyz] at hbc
                  by_cases hzy : z.toNat < y.toNat
                  · rw [if_pos hzy] at hbc
                    exact absurd hbc (by simp)
                  · rw [if_pos (show x.toNat < z.toNat by omega)]
              · rw [if_neg hxy] at hab
                by_cases hyx : y.toNat < x.toNat
                · rw [if_pos hyx] at hab
                  exact absurd hab (by simp)
                · rw [if_neg hyx] at hab
                  by_cases hyz : y.toNat < z.toNat
                  · rw [if_pos (show x.toNat < z.toNat by omega)]
                  · rw [if_neg hyz] at hbc
                    by_cases hzy : z.toNat < y.toNat
                    · rw [if_pos hzy] at hbc
                      exact absurd hbc (by simp)
                    · rw [if_neg hzy] at hbc
                      rw [if_neg (show ¬ x.toNat < z.toNat by omega),
                        if_neg (show ¬ z.toNat < x.toNat by omega)]
                      exact ih hab hbc

theorem charListLt_total {a b : List Char}
    (hab : charListLt a b = false) (hba : charListLt b a = false) : a = b := by
  induction a generalizing b with
  | nil =>
      cases b with
      | nil => rfl
      | cons y ys => simp [charListLt] at hab
  | cons x xs ih =>
      cases b with
      | nil => simp [charListLt] at hba
      | cons y ys =>
          simp only [charListLt] at hab hba
          by_cases hxy : x.toNat < y.toNat
          · rw [if_pos hxy] at hab
            exact absurd hab (by simp)
          · by_cases hyx : y.toNat < x.toNat
            · rw [if_pos hyx] at hba
              exact absurd hba (by simp)
            · have hv : x.val.toNat = y.val.toNat :=
                le_antisymm (not_lt.mp hyx) (not_lt.mp hxy)
              have hc : x = y := Char.ext_iff.mpr (UInt32.ext_iff.mpr hv)
              rw [if_neg hxy, if_neg hyx] at hab
              rw [if_neg hyx, if_neg hxy] at hba
              rw [hc, ih hab hba]

theorem strLt_trans {a b c : String} (hab : strLt a b) (hbc : strLt b c) :
    strLt a c :=
  charListLt_trans hab hbc

theorem strLt_asymm_total {a b : String} (hab : ¬ strLt a b) (hne : a ≠ b) :
    strLt b a := by
  unfold strLt at *
  cases h : charListLt b.data a.data with
  | true => rfl
  | false =>
      have hab' : charListLt a.data b.data = false := by
        cases hcl : charListLt a.data b.data
        · rfl
        · exact absurd hcl hab
      have hd := charListLt_total hab' h
      obtain ⟨da⟩ := a
      obtain ⟨db⟩ := b
      simp only at hd
      exact absurd (by rw [hd]) hne

/-! ## Sorted deduplication

pandas produces group keys and `sorted(... .unique())` as sorted lists of
distinct values.  `dedupSortBy` realises this with a structurally recursive
insertion (so that concrete instances evaluate by `decide`): insert each
element into an accumulated duplicate-free list, keeping it ordered by the
strict comparison `lt`. -/

def insBy (lt : α → α → Prop) [DecidableRel lt] [DecidableEq α] (x : α) :
    List α → List α
  | [] => [x]
  | y :: ys =>
      if x = y then y :: ys
      else if lt x y then x :: y :: ys
      else y :: insBy lt x ys

/-- The distinct values of `l`, ordered by `lt`. -/
def dedupSortBy (lt : α → α → Prop) [DecidableRel lt] [DecidableEq α]
    (l : List α) : List α :=
  l.foldr (insBy lt) []

theorem mem_insBy (lt : α → α → Prop) [DecidableRel lt] [DecidableEq α]
    (x a : α) (l : List α) : a ∈ insBy lt x l ↔ a = x ∨ a ∈ l := by
  induction l with
  | nil => simp [insBy]
  | cons y ys ih =>
      by_cases hxy : x = y
      · subst hxy
        simp [insBy]
      · by_cases hlt : lt x y
        · simp [insBy, hxy, hlt]
        · simp [insBy, hxy, hlt, ih]
          tauto

theorem mem_dedupSortBy (lt : α → α → Prop) [DecidableRel lt] [DecidableEq α]
    (a : α) (l : List α) : a ∈ dedupSortBy lt l ↔ a ∈ l := by
  induction l with
  | nil => simp [dedupSortBy]
  | cons y ys ih =>
      simp only [dedupSortBy, List.foldr_cons] at *
      rw [mem_insBy, ih, List.mem_cons]

theorem pairwise_insBy (lt : α → α → Prop) [DecidableRel lt] [DecidableEq α]
    (htrans : ∀ {a b c}, lt a b → lt b c → lt a c)
    (htot : ∀ {a b}, ¬ lt a b → a ≠ b → lt b a)
    (x : α) (l : List α) (hl : l.Pairwise lt) :
    (insBy lt x l).Pairwise lt := by
  induction l with
  | nil => simp [insBy]
  | cons y ys ih =>
      rw [List.pairwise_cons] at hl
      obtain ⟨hy, hys⟩ := hl
      by_cases hxy : x = y
      · subst hxy
        rw [insBy, if_pos rfl, List.pairwise_cons]
        exact ⟨hy, hys⟩
      · by_cases hlt : lt x y
        · simp only [insBy, if_neg hxy, if_pos hlt]
          rw [List.pairwise_cons]
          refine ⟨?_, ?_⟩
          · intro b hb
            rcases List.mem_cons.mp hb with h | h
            · exact h ▸ hlt
            · exact htrans hlt (hy b h)
          · rw [List.pairwise_cons]
            exact ⟨hy, hys⟩
        · have hyx : lt y x := htot hlt hxy
          simp only [insBy, if_neg hxy, if_neg hlt]
          rw [List.pairwise_cons]
          refine ⟨?_, ih hys⟩
          intro b hb
          rcases (mem_insBy _ x b ys).mp hb with h | h
          · exact h ▸ hyx
          · exact hy b h

theorem pairwise_dedupSortBy (lt : α → α → Prop) [DecidableRel lt]
    [DecidableEq α]
    (htrans : ∀ {a b c}, lt a b → lt b c → lt a c)
    (htot : ∀ {a b}, ¬ lt a b → a ≠ b → lt b a)
    (l : List α) : (dedupSortBy lt l).Pairwise lt := by
  induction l with
  | nil => simp [dedupSortBy]
  | cons y ys ih => exact pairwise_insBy lt htrans htot y _ ih

theorem nodup_dedupSortBy (lt : α → α → Prop) [DecidableRel lt] [DecidableEq α]
    (htrans : ∀ {a b c}, lt a b → lt b c → lt a c)
    (htot : ∀ {a b}, ¬ lt a b → a ≠ b → lt b a)
    (hirr : ∀ {a}, ¬ lt a a)
    (l : List α) : (dedupSortBy lt l).Nodup :=
  (pairwise_dedupSortBy lt htrans htot l).imp
    (fun h => by rintro rfl; exact hirr h)

theorem int_lt_trans : ∀ {a b c : Int}, a < b → b < c → a < c :=
  fun h h' => lt_trans h h'

theorem int_lt_total : ∀ {a b : Int}, ¬ a < b → a ≠ b → b < a :=
  fun h h' => lt_of_le_of_ne (not_lt.mp h) (Ne.symm h')

theorem sorted_dedupSortBy_int (l : List Int) :
    (dedupSortBy (· < ·) l).Sorted (· < ·) :=
  pairwise_dedupSortBy (α := Int) (· < ·) int_lt_trans int_lt_total l

theorem nodup_dedupSortBy_int (l : List Int) :
    (dedupSortBy (· < ·) l).Nodup :=
  (sorted_dedupSortBy_int l).nodup

/-! ## Cumulative adoption table (app.py lines 94–99)

`adoption_years = data['Adoption_Year'].value_counts().reset_index()` counts
rows per distinct non-missing `Adoption_Year`; the frame is then sorted
ascending by `Year` (the keys are distinct, so the resulting order is the
ascending order of the distinct years regardless of tie behaviour) and a
running cumulative sum of `Count` is appended. -/

/-- The non-missing `Adoption_Year` entries of the table, in row order
(`value_counts` drops NaN). -/
def adoptionEntries (t : Table) : List Int :=
  t.filterMap (fun r => r.adoptionYear)

/-- `value_counts()[y]`: the number of rows whose `Adoption_Year` is `y`. -/
def adoptionCount (t : Table) (y : Int) : Nat :=
  (adoptionEntries t).count y

/-- The distinct non-missing adoption years in ascending order: the `Year`
column of the counts frame after `adoption_years.sort_values('Year')`. -/
def adoptionYearsSorted (t : Table) : List Int :=
  dedupSortBy (· < ·) (adoptionEntries t)

/-- A row of the cumulative adoption frame: `Year`, `Count`,
`Cumulative_Count`. -/
structure AdoptionRow where
  year : Int
  count : Nat
  cumulative : Nat
deriving DecidableEq, Repr

/-- `adoption_years['Count'].cumsum()`: attach the running sum, starting from
accumulator `acc`. -/
def cumsumFrom (acc : Nat) : List (Int × Nat) → List AdoptionRow
  | [] => []
  | (y, c) :: rest => ⟨y, c, acc + c⟩ :: cumsumFrom (acc + c) rest

/-- Lines 94–99: the pre-expansion cumulative adoption table — one row per
distinct adoption year, ascending, with occurrence count and running
cumulative sum. -/
def aggregate_adoption (t : Table) : List AdoptionRow :=
  cumsumFrom 0 ((adoptionYearsSorted t).map (fun y => (y, adoptionCount t y)))

/-! ## Expansion for animation (app.py lines 102–112) -/

/-- A row of the expanded animation frame: a cumulative row tagged with an
`Animation_Year`. -/
structure ExpandedRow where
  year : Int
  count : Nat
  cumulative : Nat
  animationYear : Int
deriving DecidableEq, Repr

/-- `all_years = sorted(adoption_years['Year'].unique())` (line 102). -/
def all_years (t : Table) : List Int :=
  dedupSortBy (· < ·) ((aggregate_adoption t).map (fun r => r.year))

/-- One animation frame (lines 106–107):
`temp_data = adoption_years[adoption_years['Year'] <= year].copy()` tagged
with `temp_data['Animation_Year'] = year`. -/
def snapshot (t : Table) (Y : Int) : List ExpandedRow :=
  ((aggregate_adoption t).filter (fun r => r.year ≤ Y)).map
    (fun r => ⟨r.year, r.count, r.cumulative, Y⟩)

/-- Lines 102–112: `expanded_adoption_data = pd.concat(expanded_data)` — the
concatenation of the snapshots of all years.  The `astype(int)` coercions of
`Year` and `Animation_Year` are the identity in this model, where years are
integers throughout. -/
def expand_adoption (t : Table) : List ExpandedRow :=
  ((all_years t).map (snapshot t)).flatten

/-! ## Sort by Year (app.py line 19)

`data = data.sort_values(by='Year')` orders the table ascending by `Year`
with pandas' default `kind='quicksort'`, whose order among rows of equal
`Year` is implementation-defined (pandas documents only `mergesort` /
`stable` as stable kinds).  The model fixes one admissible order — an
insertion sort; no theorem below relies on the order of equal-`Year` rows. -/

def insertByYear (r : Row) : Table → Table
  | [] => [r]
  | s :: rest =>
      if r.year ≤ s.year then r :: s :: rest else s :: insertByYear r rest

def sort_values_Year (t : Table) : Table :=
  t.foldr insertByYear []

/-! ## Mean and mode -/

/-- pandas `Series.mean()` applied to the list `vs` of non-missing values of
a column slice: NaN (modelled `none`) when every value was missing, else the
arithmetic mean. -/
def seriesMean (vs : List ℚ) : Option ℚ :=
  if vs.length = 0 then none else some (vs.sum / (vs.length : ℚ))

/-- pandas `Series.mode()`: the distinct values of maximal multiplicity, in
ascending order. -/
def seriesMode (vs : List String) : List String :=
  (dedupSortBy strLt vs).filter
    (fun x => vs.all (fun y => decide (vs.count y ≤ vs.count x)))

/-! ## Usage and savings aggregations (app.py lines 38 and 66) -/

/-- Ascending lexicographic order on (Year, label) group keys: the order in
which pandas lists the keys of a two-column `groupby`. -/
def pairLt (a b : Int × String) : Prop :=
  a.1 < b.1 ∨ (a.1 = b.1 ∧ strLt a.2 b.2)

instance (a b : Int × String) : Decidable (pairLt a b) :=
  inferInstanceAs (Decidable (a.1 < b.1 ∨ (a.1 = b.1 ∧ strLt a.2 b.2)))

/-- The group keys of `data.groupby(['Year', 'Energy_Source'])`: the distinct
(Year, Energy_Source) pairs present in the table. -/
def usageKeys (t : Table) : List (Int × String) :=
  dedupSortBy pairLt (t.map (fun r => (r.year, r.energySource)))

/-- The non-missing `Monthly_Usage_kWh` values of one (Year, Energy_Source)
group. -/
def usageGroupValues (t : Table) (k : Int × String) : List ℚ :=
  (t.filter (fun r => decide (r.year = k.1 ∧ r.energySource = k.2))).filterMap
    (fun r => r.monthlyUsage)

/-- Line 38: `data.groupby(['Year', 'Energy_Source'])['Monthly_Usage_kWh']
.mean().reset_index()`. -/
def aggregate_usage (t : Table) : List ((Int × String) × Option ℚ) :=
  (usageKeys t).map (fun k => (k, seriesMean (usageGroupValues t k)))

/-- The group keys of `data.groupby(['Year', 'Income_Level'])`. -/
def savingsKeys (t : Table) : List (Int × String) :=
  dedupSortBy pairLt (t.map (fun r => (r.year, r.incomeLevel)))

/-- The non-missing `Cost_Savings_USD` values of one (Year, Income_Level)
group. -/
def savingsGroupValues (t : Table) (k : Int × String) : List ℚ :=
  (t.filter (fun r => decide (r.year = k.1 ∧ r.incomeLevel = k.2))).filterMap
    (fun r => r.costSavings)

/-- Line 66: `data.groupby(['Year', 'Income_Level'])['Cost_Savings_USD']
.mean().reset_index()`. -/
def aggregate_savings (t : Table) : List ((Int × String) × Option ℚ) :=
  (savingsKeys t).map (fun k => (k, seriesMean (savingsGroupValues t k)))

/-! ## Map view (app.py lines 147–163) -/

/-- The five selectable variables of the map view (line 151). -/
inductive MapVariable
  | monthlyUsageKWh
  | costSavingsUSD
  | householdSize
  | incomeLevel
  | urbanRural
deriving DecidableEq, Repr

/-- Line 158's membership test
`selected_variable in ['Monthly_Usage_kWh', 'Cost_Savings_USD', 'Household_Size']`. -/
def MapVariable.isNumeric : MapVariable → Bool
  | .monthlyUsageKWh | .costSavingsUSD | .householdSize => true
  | .incomeLevel | .urbanRural => false

/-- The numeric column selected by a numeric variable. -/
def MapVariable.numValue : MapVariable → Row → Option ℚ
  | .monthlyUsageKWh => fun r => r.monthlyUsage
  | .costSavingsUSD => fun r => r.costSavings
  | .householdSize => fun r => r.householdSize
  | .incomeLevel => fun _ => none
  | .urbanRural => fun _ => none

/-- The categorical column selected by a categorical variable. -/
def MapVariable.catValue : MapVariable → Row → String
  | .incomeLevel => fun r => r.incomeLevel
  | .urbanRural => fun r => r.urbanRural
  | _ => fun _ => ""

/-- A choropleth cell value: a numeric mean or a categorical mode. -/
inductive CellValue
  | num (q : ℚ)
  | cat (s : String)
deriving DecidableEq, Repr

/-- `filtered_data = data[data['Year'] == selected_year]` (line 155). -/
def filterYear (t : Table) (y : Int) : Table :=
  t.filter (fun r => decide (r.year = y))

/-- The group keys of `filtered_data.groupby('Country')`: the distinct
countries, ascending (pandas sorts group keys). -/
def countriesOf (t : Table) : List String :=
  dedupSortBy strLt (t.map (fun r => r.country))

/-- The rows of one country group. -/
def countryRows (t : Table) (c : String) : Table :=
  t.filter (fun r => decide (r.country = c))

/-- Lines 155–163: the map-view reduction `country_avg` over the
`Year`-filtered rows.  Numeric variable: per-country mean (`none` — NaN —
when the group's values are all missing).  Categorical variable:
`x.mode()[0]`, i.e. the first element of the ascending mode list (`none`
models the indexing error on an empty mode list, which cannot arise for the
nonempty groups that `groupby` produces). -/
def map_filter (t : Table) (selYear : Int) (v : MapVariable) :
    List (String × Option CellValue) :=
  let fd := filterYear t selYear
  (countriesOf fd).map (fun c =>
    if v.isNumeric then
      (c, (seriesMean ((countryRows fd c).filterMap v.numValue)).map CellValue.num)
    else
      (c, (seriesMode ((countryRows fd c).map v.catValue)).head?.map CellValue.cat))

/-! ## Example tables -/

/-- A three-row example table whose `Adoption_Year` values are
`[2010, 2010, 2012]` (the worked example of §8 of the design). -/
def exRow (ay : Int) : Row :=
  ⟨2020, "Brazil", "Solar", some 100, some 10, "Low", some 3, "Urban", some ay⟩

def exTable : Table := [exRow 2010, exRow 2010, exRow 2012]

example : aggregate_adoption exTable = [⟨2010, 2, 2⟩, ⟨2012, 1, 3⟩] := by decide

example : expand_adoption exTable =
    [⟨2010, 2, 2, 2010⟩, ⟨2010, 2, 2, 2012⟩, ⟨2012, 1, 3, 2012⟩] := by decide

/-- A Brazil row for 2015 with a given `Monthly_Usage_kWh` (§8's map-filter
example uses usages 100, 200, 300). -/
def brazilRow (u : ℚ) : Row :=
  ⟨2015, "Brazil", "Solar", some u, some 10, "Low", some 3, "Urban", some 2010⟩

def brazilTable : Table := [brazilRow 100, brazilRow 200, brazilRow 300]

example : map_filter brazilTable 2015 .monthlyUsageKWh
    = [("Brazil", some (.num 200))] := by
  norm_num [map_filter, filterYear, countriesOf, dedupSortBy, insBy,
    countryRows, seriesMean, brazilTable, brazilRow, MapVariable.isNumeric,
    MapVariable.numValue, List.filterMap_cons, List.filterMap_nil,
    List.sum_cons, List.sum_nil]
  intro h
  exact absurd h (Option.some_ne_none _)

/-- An India row for 2015 with a given `Urban_Rural` value (§8's categorical
map-filter example uses Urban, Urban, Rural). -/
def indiaRow (ur : String) : Row :=
  ⟨2015, "India", "Wind", some 50, some 5, "Middle", some 4, ur, some 2011⟩

def indiaTable : Table := [indiaRow "Urban", indiaRow "Urban", indiaRow "Rural"]

example : map_filter indiaTable 2015 .urbanRural
    = [("India", some (.cat "Urban"))] := by decide

/-- A single row whose `Monthly_Usage_kWh` is missing: its
(Year, Energy_Source) group exists but has only missing values. -/
def missingUsageRow : Row :=
  ⟨2020, "Chile", "Hydro", none, some 7, "High", some 2, "Rural", some 2019⟩

example : aggregate_usage [missingUsageRow] = [((2020, "Hydro"), none)] := by
  decide

/-! ## Lemmas about the cumulative adoption table -/

theorem cumsumFrom_map_year (acc : Nat) (l : List (Int × Nat)) :
    (cumsumFrom acc l).map (fun r => r.year) = l.map (fun p => p.1) := by
  induction l generalizing acc with
  | nil => rfl
  | cons p rest ih => cases p; simp [cumsumFrom, ih]

theorem aggregate_adoption_map_year (t : Table) :
    (aggregate_adoption t).map (fun r => r.year) = adoptionYearsSorted t := by
  rw [aggregate_adoption, cumsumFrom_map_year, List.map_map]
  show (adoptionYearsSorted t).map (fun y => y) = adoptionYearsSorted t
  exact List.map_id' _

theorem mem_cumsumFrom_year {acc : Nat} {l : List (Int × Nat)}
    {r : AdoptionRow} (h : r ∈ cumsumFrom acc l) :
    r.year ∈ l.map (fun p => p.1) := by
  have h' : r.year ∈ (cumsumFrom acc l).map (fun r => r.year) :=
    List.mem_map_of_mem _ h
  rwa [cumsumFrom_map_year] at h'

theorem sum_map_add (f g : α → Nat) (l : List α) :
    (l.map (fun x => f x + g x)).sum = (l.map f).sum + (l.map g).sum := by
  induction l with
  | nil => rfl
  | cons x xs ih =>
      simp only [List.map_cons, List.sum_cons, ih]
      omega

theorem sum_map_indicator [DecidableEq α] (a : α) (l : List α) (hl : l.Nodup) :
    (l.map (fun y => if a = y then 1 else 0)).sum = if a ∈ l then 1 else 0 := by
  induction l with
  | nil => simp
  | cons x xs ih =>
      rw [List.nodup_cons] at hl
      obtain ⟨hx, hxs⟩ := hl
      by_cases hax : a = x
      · subst hax
        simp [List.sum_cons, ih hxs, hx]
      · rw [List.map_cons, List.sum_cons, if_neg hax, ih hxs, Nat.zero_add]
        simp [List.mem_cons, hax]

/-- The number of entries of `A` that are at most `Y` is the sum, over the
distinct values `z ≤ Y` of any duplicate-free cover `ys` of `A`, of the
multiplicity of `z` in `A`. -/
theorem count_filter_le (Y : Int) (A : List Int) :
    ∀ ys : List Int, ys.Nodup → (∀ a ∈ A, a ∈ ys) →
      ((ys.filter (fun z => decide (z ≤ Y))).map (fun z => A.count z)).sum
        = (A.filter (fun a => decide (a ≤ Y))).length := by
  induction A with
  | nil =>
      intro ys _ _
      simp [List.count_nil]
  | cons a A' ih =>
      intro ys hnd hcov
      have hmem : a ∈ ys := hcov a (List.mem_cons_self a A')
      have hcov' : ∀ b ∈ A', b ∈ ys := fun b hb =>
        hcov b (List.mem_cons_of_mem a hb)
      have hstep : ((ys.filter (fun z => decide (z ≤ Y))).map
          (fun z => (a :: A').count z)).sum
          = ((ys.filter (fun z => decide (z ≤ Y))).map
              (fun z => A'.count z)).sum
            + ((ys.filter (fun z => decide (z ≤ Y))).map
                (fun z => if a = z then 1 else 0)).sum := by
        rw [← sum_map_add]
        apply congrArg
        apply List.map_congr_left
        intro z _
        rw [List.count_cons]
        congr 1
        simp [beq_iff_eq]
      rw [hstep, ih ys hnd hcov',
        sum_map_indicator a _ (hnd.filter _), List.filter_cons]
      by_cases haY : a ≤ Y
      · have h1 : a ∈ ys.filter (fun z => decide (z ≤ Y)) :=
          List.mem_filter.mpr ⟨hmem, by simpa using haY⟩
        rw [if_pos h1, if_pos (show decide (a ≤ Y) = true by simpa using haY)]
        simp
      · have h1 : a ∉ ys.filter (fun z => decide (z ≤ Y)) := by
          intro hc
          exact haY (by simpa using (List.mem_filter.mp hc).2)
        rw [if_neg h1,
          if_neg (show ¬ decide (a ≤ Y) = true by simpa using haY),
          Nat.add_zero]

/-- Characterisation of the running cumulative sum: every produced row
carries `f` of its year as its count, and the accumulator plus the summed
counts of all years up to its own as its cumulative value. -/
theorem cumsumFrom_char (f : Int → Nat) :
    ∀ (ys : List Int) (acc : Nat), ys.Pairwise (· < ·) →
      ∀ r ∈ cumsumFrom acc (ys.map (fun y => (y, f y))),
        r.count = f r.year ∧
        r.cumulative
          = acc + ((ys.filter (fun z => decide (z ≤ r.year))).map f).sum := by
  intro ys
  induction ys with
  | nil =>
      intro acc _ r hr
      simp [cumsumFrom] at hr
  | cons y ys' ih =>
      intro acc hpw r hr
      rw [List.pairwise_cons] at hpw
      obtain ⟨hy, hpw'⟩ := hpw
      simp only [List.map_cons, cumsumFrom] at hr
      rcases List.mem_cons.mp hr with hr | hr
      · subst hr
        refine ⟨rfl, ?_⟩
        rw [List.filter_cons, if_pos (by simp)]
        have h2 : ys'.filter
            (fun z => decide (z ≤ (AdoptionRow.mk y (f y) (acc + f y)).year))
            = [] := by
          rw [List.filter_eq_nil_iff]
          intro z hz
          simpa using not_le.mpr (hy z hz)
        rw [h2]
        simp
      · have h3 := ih (acc + f y) hpw' r hr
        have hyr : y < r.year := by
          have hmem := mem_cumsumFrom_year hr
          simp only [List.map_map] at hmem
          simp at hmem
          exact hy _ hmem
        refine ⟨h3.1, ?_⟩
        rw [h3.2, List.filter_cons, if_pos (by simp [le_of_lt hyr])]
        simp [Nat.add_assoc]

theorem pairwise_adoptionYearsSorted (t : Table) :
    (adoptionYearsSorted t).Pairwise (· < ·) :=
  pairwise_dedupSortBy (α := Int) (· < ·) int_lt_trans int_lt_total _

theorem mem_adoptionYearsSorted {t : Table} {y : Int} :
    y ∈ adoptionYearsSorted t ↔ y ∈ adoptionEntries t :=
  mem_dedupSortBy _ _ _

/-- Every row of the cumulative table counts its own year's multiplicity and
accumulates the number of entries up to its year. -/
theorem aggregate_adoption_char (t : Table) :
    ∀ r ∈ aggregate_adoption t,
      r.count = adoptionCount t r.year ∧
      r.cumulative
        = ((adoptionEntries t).filter (fun a => decide (a ≤ r.year))).length := by
  intro r hr
  have h := cumsumFrom_char (adoptionCount t) (adoptionYearsSorted t) 0
    (pairwise_adoptionYearsSorted t) r hr
  refine ⟨h.1, ?_⟩
  rw [h.2, Nat.zero_add]
  exact count_filter_le r.year (adoptionEntries t) (adoptionYearsSorted t)
    (nodup_dedupSortBy (α := Int) (· < ·) int_lt_trans int_lt_total
      (fun h => lt_irrefl _ h) _)
    (fun a ha => mem_adoptionYearsSorted.mpr ha)

/-! ## Lemmas about the animation expansion -/

theorem insBy_eq_cons (lt : α → α → Prop) [DecidableRel lt] [DecidableEq α]
    (hirr : ∀ {a}, ¬ lt a a) (x : α) (l : List α)
    (hx : ∀ y ∈ l, lt x y) : insBy lt x l = x :: l := by
  cases l with
  | nil => rfl
  | cons y ys =>
      have h1 : x ≠ y := fun h => hirr (h ▸ hx y (List.mem_cons_self y ys))
      simp only [insBy, if_neg h1, if_pos (hx y (List.mem_cons_self y ys))]

theorem dedupSortBy_eq_self (lt : α → α → Prop) [DecidableRel lt]
    [DecidableEq α] (hirr : ∀ {a}, ¬ lt a a) (l : List α)
    (hl : l.Pairwise lt) : dedupSortBy lt l = l := by
  induction l with
  | nil => rfl
  | cons y ys ih =>
      rw [List.pairwise_cons] at hl
      obtain ⟨hy, hys⟩ := hl
      show insBy lt y (dedupSortBy lt ys) = y :: ys
      rw [ih hys]
      exact insBy_eq_cons lt hirr y ys hy

theorem all_years_eq (t : Table) : all_years t = adoptionYearsSorted t := by
  rw [all_years, aggregate_adoption_map_year]
  exact dedupSortBy_eq_self (α := Int) (· < ·) (fun h => lt_irrefl _ h) _
    (pairwise_adoptionYearsSorted t)

theorem snapshot_animationYear {t : Table} {Y : Int} {e : ExpandedRow}
    (h : e ∈ snapshot t Y) : e.animationYear = Y := by
  rw [snapshot] at h
  obtain ⟨r, _, hr⟩ := List.mem_map.mp h
  rw [← hr]

theorem filter_snapshot (t : Table) (Y Y' : Int) :
    (snapshot t Y').filter (fun e => decide (e.animationYear = Y))
      = if Y' = Y then snapshot t Y else [] := by
  by_cases h : Y' = Y
  · subst h
    rw [if_pos rfl, List.filter_eq_self]
    intro e he
    simp [snapshot_animationYear he]
  · rw [if_neg h, List.filter_eq_nil_iff]
    intro e he
    simp [snapshot_animationYear he, h]

theorem flatten_filter (p : β → Bool) (l : List (List β)) :
    l.flatten.filter p = (l.map (fun xs => xs.filter p)).flatten := by
  induction l with
  | nil => rfl
  | cons x xs ih => simp [List.filter_append, ih]

theorem flatten_map_ite {β : Type} (g : List β) (Y : Int) :
    ∀ ys : List Int, ys.Nodup → Y ∈ ys →
      (ys.map (fun z => if z = Y then g else [])).flatten = g := by
  intro ys
  induction ys with
  | nil => intro _ h; cases h
  | cons z zs ih =>
      intro hnd hY
      rw [List.nodup_cons] at hnd
      obtain ⟨hz, hnd'⟩ := hnd
      rcases List.mem_cons.mp hY with h | h
      · rw [List.map_cons, if_pos h.symm, List.flatten_cons]
        have hrest : (zs.map (fun z' => if z' = Y then g else [])).flatten
            = [] := by
          rw [List.flatten_eq_nil_iff]
          intro l hl
          obtain ⟨Y', hY', hl'⟩ := List.mem_map.mp hl
          have hne : Y' ≠ Y := by
            intro hc
            exact hz ((hc.trans h) ▸ hY')
          rw [if_neg hne] at hl'
          exact hl'.symm
        rw [hrest, List.append_nil]
      · have hne : z ≠ Y := by
          intro hc
          exact hz (hc ▸ h)
        rw [List.map_cons, if_neg hne, List.flatten_cons, List.nil_append]
        exact ih hnd' h

theorem nodup_all_years (t : Table) : (all_years t).Nodup := by
  rw [all_years_eq]
  exact (pairwise_adoptionYearsSorted t).imp (fun h => ne_of_lt h)

theorem expand_filter {t : Table} {Y : Int} (hY : Y ∈ all_years t) :
    (expand_adoption t).filter (fun e => decide (e.animationYear = Y))
      = snapshot t Y := by
  rw [expand_adoption, flatten_filter, List.map_map]
  have heq : (all_years t).map
        ((fun xs => xs.filter (fun e => decide (e.animationYear = Y)))
          ∘ snapshot t)
      = (all_years t).map (fun z => if z = Y then snapshot t Y else []) :=
    List.map_congr_left (fun z _ => filter_snapshot t Y z)
  rw [heq]
  exact flatten_map_ite (snapshot t Y) Y (all_years t) (nodup_all_years t) hY

theorem expand_single {t : Table} {y : Int}
    (h : adoptionYearsSorted t = [y]) :
    expand_adoption t = (aggregate_adoption t).map
      (fun r => ⟨r.year, r.count, r.cumulative, y⟩) := by
  have hall : all_years t = [y] := by rw [all_years_eq, h]
  rw [expand_adoption, hall]
  simp only [List.map_cons, List.map_nil, List.flatten_cons, List.flatten_nil,
    List.append_nil]
  rw [snapshot]
  have hfl : (aggregate_adoption t).filter (fun r => decide (r.year ≤ y))
      = aggregate_adoption t := by
    rw [List.filter_eq_self]
    intro r hr
    have hy : r.year ∈ (aggregate_adoption t).map (fun r => r.year) :=
      List.mem_map_of_mem _ hr
    rw [aggregate_adoption_map_year, h] at hy
    simp at hy
    simp [hy]
  rw [hfl]

/-! ## Lemmas about snapshot sizes -/

theorem get_congr {l l2 : List α} (h : l = l2) {i : Nat} (hi : i < l.length)
    (hi2 : i < l2.length) : l.get ⟨i, hi⟩ = l2.get ⟨i, hi2⟩ := by
  subst h
  rfl

theorem filter_le_take (L : List AdoptionRow)
    (hpw : (L.map (fun r => r.year)).Pairwise (· < ·)) :
    ∀ i (h : i < L.length),
      L.filter (fun r => decide (r.year ≤ (L.get ⟨i, h⟩).year))
        = L.take (i + 1) := by
  induction L with
  | nil => intro i h; cases h
  | cons x L' ih =>
      intro i h
      rw [List.map_cons, List.pairwise_cons] at hpw
      obtain ⟨hx, hpw'⟩ := hpw
      cases i with
      | zero =>
          rw [List.filter_cons, if_pos (by simp)]
          have hrest : L'.filter
              (fun r => decide (r.year ≤ ((x :: L').get ⟨0, h⟩).year))
              = [] := by
            rw [List.filter_eq_nil_iff]
            intro r hr
            have hlt := hx r.year (List.mem_map_of_mem _ hr)
            simp only [List.get] at hlt ⊢
            simp
            omega
          rw [hrest]
          rfl
      | succ i' =>
          have hi' : i' < L'.length := by
            simpa using Nat.lt_of_succ_lt_succ h
          have hget : ((x :: L').get ⟨i' + 1, h⟩) = L'.get ⟨i', hi'⟩ := rfl
          rw [List.filter_cons, hget]
          have hxle : x.year ≤ (L'.get ⟨i', hi'⟩).year := by
            have := hx (L'.get ⟨i', hi'⟩).year
              (List.mem_map_of_mem _ (List.get_mem L' i' hi'))
            omega
          rw [if_pos (by simpa using hxle), List.take_succ_cons]
          rw [ih hpw' i' hi']

theorem snapshot_length (t : Table) (i : Nat)
    (h : i < (adoptionYearsSorted t).length) :
    (snapshot t ((adoptionYearsSorted t).get ⟨i, h⟩)).length = i + 1 := by
  have hmap := aggregate_adoption_map_year t
  have hlen : (adoptionYearsSorted t).length = (aggregate_adoption t).length := by
    rw [← hmap, List.length_map]
  have hpw : ((aggregate_adoption t).map (fun r => r.year)).Pairwise
      (· < ·) := by
    rw [hmap]
    exact pairwise_adoptionYearsSorted t
  have hi : i < (aggregate_adoption t).length := hlen ▸ h
  have hy : (adoptionYearsSorted t).get ⟨i, h⟩
      = ((aggregate_adoption t).get ⟨i, hi⟩).year := by
    rw [get_congr hmap.symm h (by simpa using hi)]
    simp
  rw [snapshot, List.length_map, hy, filter_le_take _ hpw i hi,
    List.length_take]
  omega

theorem range_map_succ_sum (n : Nat) :
    ((List.range n).map (fun i => i + 1)).sum * 2 = n * (n + 1) := by
  induction n with
  | zero => rfl
  | succ m ih =>
      rw [List.range_succ, List.map_append, List.sum_append]
      simp only [List.map_cons, List.map_nil, List.sum_cons, List.sum_nil,
        Nat.add_zero]
      rw [Nat.add_mul, ih]
      ring

theorem expand_length_twice (t : Table) :
    (expand_adoption t).length * 2
      = (adoptionYearsSorted t).length
        * ((adoptionYearsSorted t).length + 1) := by
  rw [expand_adoption, List.length_flatten, List.map_map]
  have hk : (all_years t).length = (adoptionYearsSorted t).length := by
    rw [all_years_eq]
  have hlist : (all_years t).map (List.length ∘ snapshot t)
      = (List.range (adoptionYearsSorted t).length).map (fun i => i + 1) := by
    apply List.ext_get
    · simpa using hk
    · intro i h1 h2
      have hia : i < (all_years t).length := by simpa using h1
      have hiy : i < (adoptionYearsSorted t).length := by rw [← hk]; exact hia
      have hgy : (all_years t).get ⟨i, hia⟩
          = (adoptionYearsSorted t).get ⟨i, hiy⟩ :=
        get_congr (all_years_eq t) hia hiy
      have e1 : ((all_years t).map (List.length ∘ snapshot t)).get ⟨i, h1⟩
          = (snapshot t ((all_years t).get ⟨i, hia⟩)).length := by
        simp [Function.comp]
      have e2 : (((List.range (adoptionYearsSorted t).length)).map
          (fun j => j + 1)).get ⟨i, h2⟩ = i + 1 := by
        simp
      rw [e1, e2, hgy, snapshot_length t i hiy]
  rw [hlist, range_map_succ_sum]

/-- A one-row table with a single distinct adoption year. -/
def singleTable : Table := [exRow 2010]

/-! ## Lemmas about the map-view reduction and the group-by aggregations -/

theorem mem_map_pair {α β : Type} (l : List α) (g : α → β) (c : α) (val : β) :
    (c, val) ∈ l.map (fun x => (x, g x)) ↔ c ∈ l ∧ val = g c := by
  rw [List.mem_map]
  constructor
  · rintro ⟨x, hx, hxe⟩
    rw [Prod.mk.injEq] at hxe
    obtain ⟨rfl, rfl⟩ := hxe
    exact ⟨hx, rfl⟩
  · rintro ⟨hc, rfl⟩
    exact ⟨c, hc, rfl⟩

theorem mem_countriesOf {t : Table} {c : String} :
    c ∈ countriesOf t ↔ ∃ r ∈ t, r.country = c := by
  rw [countriesOf, mem_dedupSortBy]
  simp [List.mem_map]

theorem mem_map_filter_num {t : Table} {y : Int} {v : MapVariable}
    {c : String} {val : Option CellValue} (hv : v.isNumeric = true) :
    (c, val) ∈ map_filter t y v
      ↔ c ∈ countriesOf (filterYear t y)
        ∧ val = (seriesMean ((countryRows (filterYear t y) c).filterMap
            v.numValue)).map CellValue.num := by
  rw [map_filter]
  simp only [hv, if_true]
  exact mem_map_pair _ _ c val

theorem mem_map_filter_cat {t : Table} {y : Int} {v : MapVariable}
    {c : String} {val : Option CellValue} (hv : v.isNumeric = false) :
    (c, val) ∈ map_filter t y v
      ↔ c ∈ countriesOf (filterYear t y)
        ∧ val = (seriesMode ((countryRows (filterYear t y) c).map
            v.catValue)).head?.map CellValue.cat := by
  rw [map_filter]
  simp only [hv, Bool.false_eq_true, if_false]
  exact mem_map_pair _ _ c val

theorem countryRows_filterYear (t : Table) (y : Int) (c : String) :
    countryRows (filterYear t y) c
      = t.filter (fun r => decide (r.year = y ∧ r.country = c)) := by
  rw [countryRows, filterYear, List.filter_filter]
  apply List.filter_congr
  intro r _
  simp [Bool.and_comm]

theorem mem_usageKeys {t : Table} {k : Int × String} :
    k ∈ usageKeys t ↔ ∃ r ∈ t, r.year = k.1 ∧ r.energySource = k.2 := by
  rw [usageKeys, mem_dedupSortBy, List.mem_map]
  constructor
  · rintro ⟨r, hr, hk⟩
    exact ⟨r, hr, by rw [← hk], by rw [← hk]⟩
  · rintro ⟨r, hr, h1, h2⟩
    exact ⟨r, hr, by rw [h1, h2]⟩

theorem mem_aggregate_usage {t : Table} {k : Int × String} {val : Option ℚ} :
    (k, val) ∈ aggregate_usage t
      ↔ k ∈ usageKeys t ∧ val = seriesMean (usageGroupValues t k) := by
  rw [aggregate_usage]
  exact mem_map_pair _ _ k val

theorem mem_savingsKeys {t : Table} {k : Int × String} :
    k ∈ savingsKeys t ↔ ∃ r ∈ t, r.year = k.1 ∧ r.incomeLevel = k.2 := by
  rw [savingsKeys, mem_dedupSortBy, List.mem_map]
  constructor
  · rintro ⟨r, hr, hk⟩
    exact ⟨r, hr, by rw [← hk], by rw [← hk]⟩
  · rintro ⟨r, hr, h1, h2⟩
    exact ⟨r, hr, by rw [h1, h2]⟩

theorem mem_aggregate_savings {t : Table} {k : Int × String}
    {val : Option ℚ} :
    (k, val) ∈ aggregate_savings t
      ↔ k ∈ savingsKeys t ∧ val = seriesMean (savingsGroupValues t k) := by
  rw [aggregate_savings]
  exact mem_map_pair _ _ k val

/-! ## Lemmas about the statistical mode -/

theorem mem_seriesMode {vs : List String} {m : String} :
    m ∈ seriesMode vs ↔ m ∈ vs ∧ ∀ x ∈ vs, vs.count x ≤ vs.count m := by
  rw [seriesMode, List.mem_filter, mem_dedupSortBy]
  simp [List.all_eq_true]

theorem exists_max_nat {α : Type} (f : α → Nat) (l : List α) (h : l ≠ []) :
    ∃ x ∈ l, ∀ y ∈ l, f y ≤ f x := by
  induction l with
  | nil => exact absurd rfl h
  | cons a as ih =>
      cases as with
      | nil =>
          refine ⟨a, List.mem_cons_self a [], ?_⟩
          intro y hy
          rcases List.mem_cons.mp hy with rfl | hy
          · exact le_refl _
          · cases hy
      | cons b bs =>
          obtain ⟨x, hx, hmax⟩ := ih (by simp)
          by_cases hfa : f x ≤ f a
          · refine ⟨a, List.mem_cons_self a _, ?_⟩
            intro y hy
            rcases List.mem_cons.mp hy with rfl | hy
            · exact le_refl _
            · exact le_trans (hmax y hy) hfa
          · refine ⟨x, List.mem_cons_of_mem a hx, ?_⟩
            intro y hy
            rcases List.mem_cons.mp hy with rfl | hy
            · exact le_of_not_le hfa
            · exact hmax y hy

theorem seriesMode_ne_nil {vs : List String} (h : vs ≠ []) :
    seriesMode vs ≠ [] := by
  obtain ⟨x, hx, hmax⟩ := exists_max_nat (fun s => vs.count s) vs h
  exact List.ne_nil_of_mem (mem_seriesMode.mpr ⟨hx, hmax⟩)

theorem pairwise_seriesMode (vs : List String) :
    (seriesMode vs).Pairwise strLt := by
  rw [seriesMode]
  exact (pairwise_dedupSortBy strLt (fun hab hbc => strLt_trans hab hbc)
    (fun hab hne => strLt_asymm_total hab hne) vs).filter _

theorem seriesMode_head_min {vs : List String} {m : String}
    (h : (seriesMode vs).head? = some m) :
    m ∈ seriesMode vs ∧ ∀ x ∈ seriesMode vs, x = m ∨ strLt m x := by
  have hpw := pairwise_seriesMode vs
  cases hs : seriesMode vs with
  | nil =>
      rw [hs] at h
      cases h
  | cons a rest =>
      rw [hs] at h
      injection h with h
      subst h
      rw [hs] at hpw
      rw [List.pairwise_cons] at hpw
      refine ⟨List.mem_cons_self _ _, ?_⟩
      intro x hx
      rcases List.mem_cons.mp hx with rfl | hx
      · exact Or.inl rfl
      · exact Or.inr (hpw.1 x hx)

/-! ## Claim theorems -/

/-- **C1**: for every distinct Year value `Y` of the cumulative adoption
table, the animation expansion produces a snapshot consisting of exactly the
rows with `Year ≤ Y`, each tagged `Animation_Year = Y`; the final output is
the concatenation of all snapshots over all `Y` (the `astype(int)` coercions
being the identity on the integer years of the model); and an input with
exactly one distinct year yields a single frame equal to the full cumulative
table. -/
theorem claim_C1_animation_expansion (t : Table) :
    all_years t = adoptionYearsSorted t
    ∧ expand_adoption t = ((all_years t).map (snapshot t)).flatten
    ∧ (∀ Y ∈ all_years t,
        (expand_adoption t).filter (fun e => decide (e.animationYear = Y))
          = ((aggregate_adoption t).filter (fun r => decide (r.year ≤ Y))).map
              (fun r => ⟨r.year, r.count, r.cumulative, Y⟩))
    ∧ (∀ e ∈ expand_adoption t, e.animationYear ∈ adoptionYearsSorted t)
    ∧ (∀ y, adoptionYearsSorted t = [y] →
        expand_adoption t = (aggregate_adoption t).map
          (fun r => ⟨r.year, r.count, r.cumulative, y⟩)) := by
  refine ⟨all_years_eq t, rfl, ?_, ?_, ?_⟩
  · intro Y hY
    exact expand_filter hY
  · intro e he
    rw [expand_adoption] at he
    obtain ⟨xs, hxs, hexs⟩ := List.mem_flatten.mp he
    obtain ⟨Y, hY, hsnap⟩ := List.mem_map.mp hxs
    rw [← hsnap] at hexs
    rw [← all_years_eq t, snapshot_animationYear hexs]
    exact hY
  · intro y hy
    exact expand_single hy

theorem claim_C1_witness :
    ((expand_adoption exTable).filter
        (fun e => decide (e.animationYear = (2012 : Int)))
      = ((aggregate_adoption exTable).filter
          (fun r => decide (r.year ≤ (2012 : Int)))).map
          (fun r => ⟨r.year, r.count, r.cumulative, (2012 : Int)⟩))
    ∧ expand_adoption singleTable = (aggregate_adoption singleTable).map
        (fun r => ⟨r.year, r.count, r.cumulative, (2010 : Int)⟩) :=
  ⟨(claim_C1_animation_expansion exTable).2.2.1 2012 (by decide),
   (claim_C1_animation_expansion singleTable).2.2.2.2 2010 (by decide)⟩

/-- **C2**: the pre-expansion cumulative adoption table lists the distinct
non-missing `Adoption_Year` values in strictly ascending order; each row
carries the multiplicity of its year, and a cumulative count equal to the
number of entries up to its year (i.e. the running sum of counts in
ascending order); on the worked example `[2010, 2010, 2012]` it equals
`[(2010, 2, 2), (2012, 1, 3)]`. -/
theorem claim_C2_cumulative_adoption (t : Table) :
    (aggregate_adoption t).map (fun r => r.year) = adoptionYearsSorted t
    ∧ ((aggregate_adoption t).map (fun r => r.year)).Pairwise (· < ·)
    ∧ (∀ y, y ∈ (aggregate_adoption t).map (fun r => r.year)
        ↔ ∃ r ∈ t, r.adoptionYear = some y)
    ∧ (∀ r ∈ aggregate_adoption t,
        r.count = (adoptionEntries t).count r.year ∧
        r.cumulative = ((adoptionEntries t).filter
          (fun a => decide (a ≤ r.year))).length)
    ∧ aggregate_adoption exTable = [⟨2010, 2, 2⟩, ⟨2012, 1, 3⟩] := by
  refine ⟨aggregate_adoption_map_year t, ?_, ?_, aggregate_adoption_char t,
    by decide⟩
  · rw [aggregate_adoption_map_year]
    exact pairwise_adoptionYearsSorted t
  · intro y
    rw [aggregate_adoption_map_year, mem_adoptionYearsSorted]
    simp [adoptionEntries, List.mem_filterMap]

theorem claim_C2_witness :
    ((2010 : Int) ∈ (aggregate_adoption exTable).map (fun r => r.year)
      ↔ ∃ r ∈ exTable, r.adoptionYear = some (2010 : Int))
    ∧ ((⟨2010, 2, 2⟩ : AdoptionRow).count
        = (adoptionEntries exTable).count (2010 : Int)
      ∧ (⟨2010, 2, 2⟩ : AdoptionRow).cumulative
        = ((adoptionEntries exTable).filter
            (fun a => decide (a ≤ (⟨2010, 2, 2⟩ : AdoptionRow).year))).length) :=
  ⟨(claim_C2_cumulative_adoption exTable).2.2.1 2010,
   (claim_C2_cumulative_adoption exTable).2.2.2.1 ⟨2010, 2, 2⟩ (by decide)⟩

/-- **C10**: with `k` distinct non-missing adoption years, the snapshot of
the `i`-th smallest year (0-based index `i`) has exactly `i + 1` rows, and
the full expansion has exactly `k * (k + 1) / 2` rows. -/
theorem claim_C10_expansion_size (t : Table) :
    (∀ i (h : i < (adoptionYearsSorted t).length),
        (snapshot t ((adoptionYearsSorted t).get ⟨i, h⟩)).length = i + 1)
    ∧ (expand_adoption t).length
        = (adoptionYearsSorted t).length
          * ((adoptionYearsSorted t).length + 1) / 2 := by
  refine ⟨snapshot_length t, ?_⟩
  have h2 := expand_length_twice t
  omega

/-- **C4**: for a numeric selected variable the map view first restricts to
rows of the selected year and groups the result by country: a country
appears iff some row has that year and country, its value is the arithmetic
mean of the group's non-missing selected values, and for Year = 2015 with
Brazil usages 100, 200, 300 the Brazil value is exactly 200. -/
theorem claim_C4_map_numeric_mean (t : Table) (y : Int) (v : MapVariable)
    (hv : v.isNumeric = true) :
    (∀ c, (∃ val, (c, val) ∈ map_filter t y v)
        ↔ ∃ r ∈ t, r.year = y ∧ r.country = c)
    ∧ (∀ c val, (c, val) ∈ map_filter t y v →
        val = (seriesMean ((t.filter
            (fun r => decide (r.year = y ∧ r.country = c))).filterMap
          v.numValue)).map CellValue.num)
    ∧ (∀ c val vs, (c, val) ∈ map_filter t y v →
        vs = (t.filter
            (fun r => decide (r.year = y ∧ r.country = c))).filterMap
          v.numValue →
        vs ≠ [] → val = some (CellValue.num (vs.sum / (vs.length : ℚ))))
    ∧ map_filter brazilTable 2015 .monthlyUsageKWh
        = [("Brazil", some (.num 200))] := by
  refine ⟨?_, ?_, ?_, ?_⟩
  · intro c
    constructor
    · rintro ⟨val, hval⟩
      have hc := ((mem_map_filter_num hv).mp hval).1
      obtain ⟨r, hr, hrc⟩ := mem_countriesOf.mp hc
      rw [filterYear, List.mem_filter] at hr
      exact ⟨r, hr.1, by simpa using hr.2, hrc⟩
    · rintro ⟨r, hrt, hry, hrc⟩
      exact ⟨_, (mem_map_filter_num hv).mpr
        ⟨mem_countriesOf.mpr
          ⟨r, List.mem_filter.mpr ⟨hrt, by simpa using hry⟩, hrc⟩, rfl⟩⟩
  · intro c val hval
    have h2 := ((mem_map_filter_num hv).mp hval).2
    rwa [countryRows_filterYear] at h2
  · intro c val vs hval hvs hne
    have h2 := ((mem_map_filter_num hv).mp hval).2
    rw [countryRows_filterYear, ← hvs] at h2
    rw [h2, seriesMean, if_neg (by simpa using hne)]
    rfl
  · norm_num [map_filter, filterYear, countriesOf, dedupSortBy, insBy,
      countryRows, seriesMean, brazilTable, brazilRow, MapVariable.isNumeric,
      MapVariable.numValue, List.filterMap_cons, List.filterMap_nil,
      List.sum_cons, List.sum_nil]
    intro h
    exact absurd h (Option.some_ne_none _)

theorem claim_C4_witness :
    ((∃ val, ("Brazil", val) ∈ map_filter brazilTable 2015 .monthlyUsageKWh)
      ↔ ∃ r ∈ brazilTable, r.year = (2015 : Int) ∧ r.country = "Brazil")
    ∧ map_filter brazilTable 2015 .monthlyUsageKWh
        = [("Brazil", some (.num 200))] :=
  ⟨(claim_C4_map_numeric_mean brazilTable 2015 .monthlyUsageKWh rfl).1
      "Brazil",
   (claim_C4_map_numeric_mean brazilTable 2015 .monthlyUsageKWh rfl).2.2.2⟩

/-- **C5**: for a categorical selected variable the map view computes, per
country among the year-filtered rows, the statistical mode — the reported
value occurs in the group and no group value occurs more often — taking the
first value of the library's ascending mode list when it is not unique; for
India with Urban, Urban, Rural the result is Urban. -/
theorem claim_C5_map_mode (t : Table) (y : Int) (v : MapVariable)
    (hv : v.isNumeric = false) :
    (∀ c val, (c, val) ∈ map_filter t y v →
        val = (seriesMode ((t.filter
            (fun r => decide (r.year = y ∧ r.country = c))).map
          v.catValue)).head?.map CellValue.cat)
    ∧ (∀ c m, (c, some (CellValue.cat m)) ∈ map_filter t y v →
        m ∈ (t.filter (fun r => decide (r.year = y ∧ r.country = c))).map
            v.catValue
        ∧ ∀ x ∈ (t.filter
              (fun r => decide (r.year = y ∧ r.country = c))).map v.catValue,
            ((t.filter (fun r => decide (r.year = y ∧ r.country = c))).map
                v.catValue).count x
              ≤ ((t.filter (fun r => decide (r.year = y ∧ r.country = c))).map
                  v.catValue).count m)
    ∧ map_filter indiaTable 2015 .urbanRural
        = [("India", some (.cat "Urban"))] := by
  refine ⟨?_, ?_, by decide⟩
  · intro c val hval
    have h2 := ((mem_map_filter_cat hv).mp hval).2
    rwa [countryRows_filterYear] at h2
  · intro c m hval
    have h2 := ((mem_map_filter_cat hv).mp hval).2
    rw [countryRows_filterYear] at h2
    obtain ⟨s, hs, hsm⟩ := Option.map_eq_some'.mp h2.symm
    injection hsm with hsm
    subst hsm
    have hmin := seriesMode_head_min hs
    exact mem_seriesMode.mp hmin.1

theorem claim_C5_witness :
    (("India", some (CellValue.cat "Urban"))
        ∈ map_filter indiaTable 2015 .urbanRural
      → "Urban" ∈ (indiaTable.filter (fun r =>
            decide (r.year = (2015 : Int) ∧ r.country = "India"))).map
          MapVariable.urbanRural.catValue)
    ∧ map_filter indiaTable 2015 .urbanRural
        = [("India", some (.cat "Urban"))] :=
  ⟨fun h => ((claim_C5_map_mode indiaTable 2015 .urbanRural rfl).2.1
      "India" "Urban" h).1,
   (claim_C5_map_mode indiaTable 2015 .urbanRural rfl).2.2⟩

/-- **C9** (implicit): the categorical tie-break is deterministic — the
reported per-country mode is the least value, in ascending string order,
among the group values of maximal multiplicity. -/
theorem claim_C9_mode_tiebreak (t : Table) (y : Int) (v : MapVariable)
    (hv : v.isNumeric = false) :
    ∀ c m, (c, some (CellValue.cat m)) ∈ map_filter t y v →
      ∀ x ∈ (t.filter (fun r => decide (r.year = y ∧ r.country = c))).map
          v.catValue,
        ((t.filter (fun r => decide (r.year = y ∧ r.country = c))).map
            v.catValue).count x
          = ((t.filter (fun r => decide (r.year = y ∧ r.country = c))).map
              v.catValue).count m
        → (x = m ∨ strLt m x) := by
  intro c m hval x hx hcount
  have h2 := ((mem_map_filter_cat hv).mp hval).2
  rw [countryRows_filterYear] at h2
  obtain ⟨s, hs, hsm⟩ := Option.map_eq_some'.mp h2.symm
  injection hsm with hsm
  subst hsm
  have hmin := seriesMode_head_min hs
  have hmmax := (mem_seriesMode.mp hmin.1).2
  have hxmode : x ∈ seriesMode ((t.filter
      (fun r => decide (r.year = y ∧ r.country = c))).map v.catValue) := by
    refine mem_seriesMode.mpr ⟨hx, ?_⟩
    intro z hz
    rw [hcount]
    exact hmmax z hz
  exact hmin.2 x hxmode

/-- A year-2015 India table whose `Urban_Rural` values tie (one Urban, one
Rural): the mode list is ascending, so its head is the least candidate. -/
def tieTable : Table := [indiaRow "Urban", indiaRow "Rural"]

theorem claim_C9_witness :
    ("India", some (CellValue.cat "Rural"))
        ∈ map_filter tieTable 2015 .urbanRural
    ∧ ("Urban" = "Rural" ∨ strLt "Rural" "Urban") :=
  ⟨by decide,
   claim_C9_mode_tiebreak tieTable 2015 .urbanRural rfl "India" "Rural"
     (by decide) "Urban" (by decide) (by decide)⟩

/-- **C6**: the usage aggregation groups rows by (Year, Energy_Source): a
pair appears iff some input row carries it, its value is the arithmetic mean
of the group's non-missing `Monthly_Usage_kWh` values, and pairs with no
rows produce no output row. -/
theorem claim_C6_usage_mean (t : Table) :
    (∀ k, (∃ val, (k, val) ∈ aggregate_usage t)
        ↔ ∃ r ∈ t, r.year = k.1 ∧ r.energySource = k.2)
    ∧ (∀ k val, (k, val) ∈ aggregate_usage t →
        val = seriesMean (usageGroupValues t k))
    ∧ (∀ k val, (k, val) ∈ aggregate_usage t → usageGroupValues t k ≠ [] →
        val = some ((usageGroupValues t k).sum
          / ((usageGroupValues t k).length : ℚ))) := by
  refine ⟨?_, ?_, ?_⟩
  · intro k
    constructor
    · rintro ⟨val, hval⟩
      exact mem_usageKeys.mp (mem_aggregate_usage.mp hval).1
    · intro h
      exact ⟨_, mem_aggregate_usage.mpr ⟨mem_usageKeys.mpr h, rfl⟩⟩
  · intro k val hval
    exact (mem_aggregate_usage.mp hval).2
  · intro k val hval hne
    rw [(mem_aggregate_usage.mp hval).2, seriesMean,
      if_neg (by simpa using hne)]

theorem claim_C6_witness :
    ((∃ val, (((2015 : Int), "Solar"), val) ∈ aggregate_usage brazilTable)
      ↔ ∃ r ∈ brazilTable, r.year = (2015 : Int) ∧ r.energySource = "Solar")
    ∧ seriesMean (usageGroupValues brazilTable ((2015 : Int), "Solar"))
        = some ((usageGroupValues brazilTable ((2015 : Int), "Solar")).sum
            / ((usageGroupValues brazilTable ((2015 : Int), "Solar")).length
              : ℚ)) :=
  ⟨(claim_C6_usage_mean brazilTable).1 ((2015 : Int), "Solar"),
   (claim_C6_usage_mean brazilTable).2.2 ((2015 : Int), "Solar") _
     (List.mem_map_of_mem _ (by decide)) (by decide)⟩

/-- **C7 counterexample**: a (Year, Energy_Source) group whose only row has
a missing `Monthly_Usage_kWh` — an all-missing group — still produces an
output row (with a missing mean), contradicting the claim that such a group
"silently produces no output row". -/
theorem claim_C7_counterexample :
    missingUsageRow.monthlyUsage = none
    ∧ (((2020 : Int), "Hydro"), (none : Option ℚ))
        ∈ aggregate_usage [missingUsageRow] :=
  ⟨rfl, by decide⟩

/-- **C7 (amended)**: a group with zero rows silently produces no output row
— a country absent from the year-filtered rows yields no map row, a
(Year, Energy_Source) pair absent from the input yields no usage row — and
no error is raised (every transform is total); but a group that is present
with all-missing values produces a row with a missing (`none`, i.e. NaN)
mean rather than no row. -/
theorem claim_C7_amended_empty_groups (t : Table) (y : Int)
    (v : MapVariable) :
    (∀ c, (∀ r ∈ t, ¬(r.year = y ∧ r.country = c)) →
        ∀ val, (c, val) ∉ map_filter t y v)
    ∧ (∀ k, (∀ r ∈ t, ¬(r.year = k.1 ∧ r.energySource = k.2)) →
        ∀ val, (k, val) ∉ aggregate_usage t)
    ∧ (∀ k, (∀ r ∈ t, ¬(r.year = k.1 ∧ r.incomeLevel = k.2)) →
        ∀ val, (k, val) ∉ aggregate_savings t)
    ∧ (∀ k, k ∈ usageKeys t → usageGroupValues t k = [] →
        (k, (none : Option ℚ)) ∈ aggregate_usage t)
    ∧ (∀ k, k ∈ savingsKeys t → savingsGroupValues t k = [] →
        (k, (none : Option ℚ)) ∈ aggregate_savings t) := by
  refine ⟨?_, ?_, ?_, ?_, ?_⟩
  · intro c hc val hval
    have hcm : c ∈ countriesOf (filterYear t y) := by
      cases hnum : v.isNumeric with
      | true => exact ((mem_map_filter_num hnum).mp hval).1
      | false => exact ((mem_map_filter_cat hnum).mp hval).1
    obtain ⟨r, hr, hrc⟩ := mem_countriesOf.mp hcm
    rw [filterYear, List.mem_filter] at hr
    exact hc r hr.1 ⟨by simpa using hr.2, hrc⟩
  · intro k hk val hval
    obtain ⟨r, hr, h1, h2⟩ := mem_usageKeys.mp (mem_aggregate_usage.mp hval).1
    exact hk r hr ⟨h1, h2⟩
  · intro k hk val hval
    obtain ⟨r, hr, h1, h2⟩ :=
      mem_savingsKeys.mp (mem_aggregate_savings.mp hval).1
    exact hk r hr ⟨h1, h2⟩
  · intro k hk hempty
    refine mem_aggregate_usage.mpr ⟨hk, ?_⟩
    rw [seriesMean, hempty]
    rfl
  · intro k hk hempty
    refine mem_aggregate_savings.mpr ⟨hk, ?_⟩
    rw [seriesMean, hempty]
    rfl

theorem claim_C7_witness :
    ("France", (none : Option CellValue))
        ∉ map_filter brazilTable 2015 .monthlyUsageKWh
    ∧ ((((1999 : Int), "Coal"), (none : Option ℚ))
        ∉ aggregate_usage brazilTable)
    ∧ (((2020 : Int), "Hydro"), (none : Option ℚ))
        ∈ aggregate_usage [missingUsageRow] :=
  ⟨(claim_C7_amended_empty_groups brazilTable 2015 .monthlyUsageKWh).1
      "France" (by decide) none,
   (claim_C7_amended_empty_groups brazilTable 2015 .monthlyUsageKWh).2.1
      ((1999 : Int), "Coal") (by decide) none,
   (claim_C7_amended_empty_groups [missingUsageRow] 2020
      .monthlyUsageKWh).2.2.2.1
      ((2020 : Int), "Hydro") (by decide) (by decide)⟩

/-- **C8**: each of the four transforms — usage mean, savings mean,
cumulative adoption with its expansion, and the map-filter reduction — is a
deterministic pure function of the (immutable) input table: equal inputs
give identical outputs, so running a transform twice yields the same table
both times. -/
theorem claim_C8_determinism (t1 t2 : Table) (y : Int) (v : MapVariable)
    (h : t1 = t2) :
    aggregate_usage t1 = aggregate_usage t2
    ∧ aggregate_savings t1 = aggregate_savings t2
    ∧ aggregate_adoption t1 = aggregate_adoption t2
    ∧ expand_adoption t1 = expand_adoption t2
    ∧ map_filter t1 y v = map_filter t2 y v := by
  subst h
  exact ⟨rfl, rfl, rfl, rfl, rfl⟩

theorem claim_C8_witness :
    aggregate_usage exTable = aggregate_usage exTable
    ∧ aggregate_savings exTable = aggregate_savings exTable
    ∧ aggregate_adoption exTable = aggregate_adoption exTable
    ∧ expand_adoption exTable = expand_adoption exTable
    ∧ map_filter exTable 2015 .urbanRural
        = map_filter exTable 2015 .urbanRural :=
  claim_C8_determinism exTable exTable 2015 .urbanRural rfl

theorem claim_C10_witness :
    (snapshot exTable ((adoptionYearsSorted exTable).get
        ⟨1, by decide⟩)).length = 2
    ∧ (expand_adoption exTable).length
        = (adoptionYearsSorted exTable).length
          * ((adoptionYearsSorted exTable).length + 1) / 2 :=
  ⟨(claim_C10_expansion_size exTable).1 1 (by decide),
   (claim_C10_expansion_size exTable).2⟩

end Renewable
